import Mathlib

/-!
Shallow embedding of the queue / worker core of the ncspot-learn repository
(src/queue.rs, src/spotify_worker.rs).

Modelling conventions:
* `Vec<Playable>` becomes `List α` with an abstract item type `α`.
* Machine indices (`usize`) become `Nat`; Rust's `saturating_sub` is `Nat`
  subtraction, which is already saturating.
* A Rust operation that can panic (out-of-range `Vec::remove`, `Vec::insert`,
  indexing, `Option::unwrap`) is embedded as a function returning `Option _`,
  where `none` means the original code panics.
* The thread-local RNG is made explicit: `rand::shuffle` becomes a function
  parameter `shuf : List Nat → List Nat` (theorems that need it assume that
  `shuf` permutes its argument), and the random index drawn by `play` becomes
  an explicit argument.
* The configuration fields read through `cfg.state()` (`shuffle`, `repeat`)
  are inlined as fields of the queue state, which is how `queue.rs` uses them.
* Calls into the playback engine (`spotify.load/stop/update_track`) are
  recorded as a list of emitted `SpotifyAction`s instead of being performed.
-/

namespace Ncspot

/-- Repeat behavior for the queue; `RepeatSetting` in queue.rs. -/
inductive RepeatSetting
  | none
  | repeatPlaylist
  | repeatTrack
deriving DecidableEq, Repr

/-- Calls the queue issues to the playback layer (`self.spotify.…` in queue.rs). -/
inductive SpotifyAction (α : Type)
  | load (track : α) (start_playing : Bool) (position_ms : Nat)
  | updateTrack
  | stopPlayer
deriving DecidableEq, Repr

/-- State of `Queue` in queue.rs: the raw track list, the optional shuffle
order (indices into `queue`), the currently playing index, plus the two
configuration fields (`cfg.state().shuffle` / `cfg.state().repeat`) the
queue reads and writes. -/
structure QueueState (α : Type) where
  queue : List α
  random_order : Option (List Nat)
  current_track : Option Nat
  shuffle : Bool
  repeat_mode : RepeatSetting
deriving DecidableEq, Repr

/-- `Queue::next_index`. Outer `none` models a panic
(`position(..).unwrap()` when the current index is missing from the order, or
out-of-range indexing `order[next_index]`); `some none` is the Rust `None`
returned at the end of the queue. -/
def next_index {α : Type} (st : QueueState α) : Option (Option Nat) :=
  match st.current_track with
  | none => some none
  | some index =>
    match st.random_order with
    | some order =>
      if index ∈ order then
        let i := order.indexOf index
        if i + 1 < st.queue.length then
          match order[i + 1]? with
          | some v => some (some v)
          | none => none
        else some none
      else none
    | none =>
      if index + 1 < st.queue.length then some (some (index + 1)) else some none

/-- `Queue::previous_index`; same panic conventions as `next_index`. -/
def previous_index {α : Type} (st : QueueState α) : Option (Option Nat) :=
  match st.current_track with
  | none => some none
  | some index =>
    match st.random_order with
    | some order =>
      if index ∈ order then
        let i := order.indexOf index
        if 0 < i then
          match order[i - 1]? with
          | some v => some (some v)
          | none => none
        else some none
      else none
    | none =>
      if 0 < index then some (some (index - 1)) else some none

/-- `Queue::get_current_index`. -/
def get_current_index {α : Type} (st : QueueState α) : Option Nat :=
  st.current_track

/-- `Queue::get_current`. Outer `none` models the panic of the unchecked
indexing `self.queue.read().unwrap()[index]`. -/
def get_current {α : Type} (st : QueueState α) : Option (Option α) :=
  match st.current_track with
  | none => some none
  | some index =>
    match st.queue[index]? with
    | some t => some (some t)
    | none => none

/-- `Queue::append`. When a shuffle order is present the code pushes
`order.len().saturating_sub(1)` onto it, then pushes the track. -/
def append {α : Type} (st : QueueState α) (track : α) : QueueState α :=
  { st with
    random_order := st.random_order.map (fun order => order ++ [order.length - 1])
    queue := st.queue ++ [track] }

/-- `Queue::insert_after_current`. `none` models a panic: the
`position(..).unwrap()` when the current index is missing from the order, or
`Vec::insert` with an out-of-range position. -/
def insert_after_current {α : Type} (st : QueueState α) (track : α) :
    Option (QueueState α) :=
  match st.current_track with
  | some index =>
    match st.random_order with
    | some order =>
      if index ∈ order then
        let next_i := order.indexOf index
        let shifted := order.map (fun item => if index < item then item + 1 else item)
        if index + 1 ≤ st.queue.length then
          some { st with
            random_order := some (shifted.insertIdx (next_i + 1) (index + 1))
            queue := st.queue.insertIdx (index + 1) track }
        else none
      else none
    | none =>
      if index + 1 ≤ st.queue.length then
        some { st with queue := st.queue.insertIdx (index + 1) track }
      else none
  | none => some (append st track)

/-- Successive `Vec::insert` calls of `Queue::append_next`'s loop: insert the
tracks at positions `i`, `i + 1`, …. -/
def insert_each {α : Type} (q : List α) (i : Nat) (tracks : List α) : List α :=
  match tracks with
  | [] => q
  | t :: ts => insert_each (q.insertIdx i t) (i + 1) ts

/-- `Queue::append_next`. The order is extended with the Rust range
`(q.len().saturating_sub(1))..(q.len() + tracks.len())`; `none` models the
panic of the first `Vec::insert` when the insertion position exceeds the
list length. Returns the updated state and the returned first index. -/
def append_next {α : Type} (st : QueueState α) (tracks : List α) :
    Option (QueueState α × Nat) :=
  let ro := st.random_order.map (fun order =>
    order ++ List.range' (st.queue.length - 1)
      (st.queue.length + tracks.length - (st.queue.length - 1)))
  let first := match st.current_track with
    | some index => index + 1
    | none => st.queue.length
  if first ≤ st.queue.length then
    some ({ st with random_order := ro, queue := insert_each st.queue first tracks }, first)
  else none

/-- `Queue::generate_random_order`: the new order is the current index (when
present) followed by the remaining indices shuffled; `shuf` stands for the
in-place `rand::shuffle`. `none` models the panic of `random.remove(current)`
when the current index is out of range. -/
def generate_random_order {α : Type} (shuf : List Nat → List Nat)
    (st : QueueState α) : Option (QueueState α) :=
  let random := List.range st.queue.length
  match st.current_track with
  | some current =>
    if current < random.length then
      some { st with random_order := some (current :: shuf (random.eraseIdx current)) }
    else none
  | none => some { st with random_order := some (shuf random) }

/-- `Queue::stop`: clears the current index and stops the playback engine. -/
def stop {α : Type} (st : QueueState α) : QueueState α × List (SpotifyAction α) :=
  ({ st with current_track := none }, [SpotifyAction.stopPlayer])

/-- The body of `Queue::play` minus the reshuffle step: load the track at
`index` (if it exists) and update the current index; out-of-range indices are
silently skipped by the `if let Some(track) = queue.get(index)` guard. -/
def playCore {α : Type} (st : QueueState α) (index : Nat) :
    QueueState α × List (SpotifyAction α) :=
  match st.queue[index]? with
  | some track =>
    ({ st with current_track := some index },
      [SpotifyAction.load track true 0, SpotifyAction.updateTrack])
  | none => (st, [])

/-- `Queue::play`. `rand_index % len` stands for `rng.gen_range(0..len)`;
`none` models a panic inside the regeneration of the shuffle order. -/
def play {α : Type} (st : QueueState α) (index : Nat)
    (reshuffle shuffle_index : Bool) (rand_index : Nat)
    (shuf : List Nat → List Nat) :
    Option (QueueState α × List (SpotifyAction α)) :=
  let queue_length := st.queue.length
  let idx := if 0 < queue_length ∧ shuffle_index = true ∧ st.shuffle = true then
    rand_index % queue_length else index
  let p := playCore st idx
  if reshuffle = true ∧ p.1.shuffle = true then
    (generate_random_order shuf p.1).map (fun s => (s, p.2))
  else some p

/-- `Queue::next`. The final fallback calls `self.spotify.stop()` directly
(engine stop only, the current index is kept); `none` models a panic inside
`next_index` or the `o[0]` indexing of an empty order. -/
def next {α : Type} (shuf : List Nat → List Nat) (st : QueueState α)
    (manual : Bool) : Option (QueueState α × List (SpotifyAction α)) :=
  if st.repeat_mode = RepeatSetting.repeatTrack ∧ manual = false then
    match st.current_track with
    | some index => play st index false false 0 shuf
    | none => some (st, [])
  else
    match next_index st with
    | none => none
    | some (some index) =>
      (play st index false false 0 shuf).map (fun p =>
        if st.repeat_mode = RepeatSetting.repeatTrack ∧ manual = true then
          ({ p.1 with repeat_mode := RepeatSetting.repeatPlaylist }, p.2)
        else p)
    | some none =>
      if st.repeat_mode = RepeatSetting.repeatPlaylist ∧ 0 < st.queue.length then
        match st.random_order with
        | some o =>
          match o[0]? with
          | some i => play st i false false 0 shuf
          | none => none
        | none => play st 0 false false 0 shuf
      else some (st, [SpotifyAction.stopPlayer])

/-- `Queue::remove`. Early return on an empty list; `none` models the panic of
`Vec::remove` on an out-of-range index or a panic in a nested call; after the
current-index bookkeeping the shuffle order is regenerated when shuffle is
enabled. -/
def remove {α : Type} (shuf : List Nat → List Nat) (st : QueueState α)
    (index : Nat) : Option (QueueState α × List (SpotifyAction α)) :=
  if st.queue.length = 0 then some (st, [])
  else if index < st.queue.length then
    let st1 : QueueState α := { st with queue := st.queue.eraseIdx index }
    if st1.queue.length = 0 then some (stop st1)
    else
      let mid : Option (QueueState α × List (SpotifyAction α)) :=
        match st1.current_track with
        | some ct =>
          if ct = index then
            if ct = st1.queue.length then
              if st1.repeat_mode = RepeatSetting.repeatPlaylist then next shuf st1 false
              else some (stop st1)
            else play st1 index false false 0 shuf
          else if index < ct then
            some ({ st1 with current_track := some (ct - 1) }, [])
          else some (st1, [])
        | none => some (st1, [])
      mid.bind (fun p =>
        if p.1.shuffle = true then
          (generate_random_order shuf p.1).map (fun s => (s, p.2))
        else some p)
  else none

/-- `Queue::shift`: remove at `fromIdx`, reinsert at `toIdx`, remap the
current index. `none` models the panics of `Vec::remove` / `Vec::insert` on
out-of-range positions. -/
def shift {α : Type} (st : QueueState α) (fromIdx toIdx : Nat) :
    Option (QueueState α) :=
  match st.queue[fromIdx]? with
  | none => none
  | some item =>
    let q1 := st.queue.eraseIdx fromIdx
    if toIdx ≤ q1.length then
      some { st with
        queue := q1.insertIdx toIdx item
        current_track :=
          match st.current_track with
          | some index =>
            if index = fromIdx then some toIdx
            else if index = toIdx ∧ toIdx < fromIdx then some (toIdx + 1)
            else if index = toIdx ∧ fromIdx < index then some (toIdx - 1)
            else some index
          | none => none }
    else none

/-- `Queue::set_repeat` (writes `cfg.state().repeat`). -/
def set_repeat {α : Type} (st : QueueState α) (new : RepeatSetting) :
    QueueState α :=
  { st with repeat_mode := new }

/-- `Queue::set_shuffle` (writes `cfg.state().shuffle`, then regenerates or
discards the order). -/
def set_shuffle {α : Type} (shuf : List Nat → List Nat) (st : QueueState α)
    (new : Bool) : Option (QueueState α) :=
  let st1 : QueueState α := { st with shuffle := new }
  if new then generate_random_order shuf st1
  else some { st1 with random_order := none }

/-- The shuffle-order half of the spec's data-model invariant: when present,
the order is a permutation of `0..len`. -/
def order_ok (ro : Option (List Nat)) (n : Nat) : Prop :=
  match ro with
  | some o => o.Perm (List.range n)
  | none => False

instance (ro : Option (List Nat)) (n : Nat) : Decidable (order_ok ro n) :=
  match ro with
  | some o => inferInstanceAs (Decidable (o.Perm (List.range n)))
  | none => isFalse (fun h => h)

/-- The spec's invariant: whenever shuffle is enabled and the track list is
non-empty, the order is present and is a bijection over `0..len`. -/
def shuffled_invariant {α : Type} (st : QueueState α) : Prop :=
  st.shuffle = true → st.queue ≠ [] → order_ok st.random_order st.queue.length

instance {α : Type} [DecidableEq α] (st : QueueState α) :
    Decidable (shuffled_invariant st) := by
  unfold shuffled_invariant
  infer_instance

/-! Worker / event-loop model (spotify_worker.rs). The worker's status mirror
and the translation of engine notifications and of the `Load` command are
embedded as pure functions from the mirror to the emitted events and engine
calls; the timeline is modelled by `Int` instants and `Nat` millisecond
positions, so `SystemTime::now() - position` becomes `now - position`. -/

/-- `PlayerStatus` in spotify_worker.rs: the worker's private status mirror. -/
inductive PlayerStatus
  | playing
  | paused
  | stopped
deriving DecidableEq, Repr

/-- `PlayerEvent` in spotify.rs, as emitted by the worker: the domain
playback-status events. -/
inductive PlayerEvent
  | playing (playback_start : Int)
  | paused (position : Nat)
  | stopped
  | finishedTrack
deriving DecidableEq, Repr

/-- `QueueEvent` in queue.rs. -/
inductive QueueEvent
  | preloadTrackRequest
deriving DecidableEq, Repr

/-- The `Event::Player` / `Event::Queue` variants of events.rs used by the
worker loop. -/
inductive Event
  | player (e : PlayerEvent)
  | queue (e : QueueEvent)
deriving DecidableEq, Repr

/-- The librespot notifications handled by the worker's
`self.player_events.next()` arm. -/
inductive LibrespotPlayerEvent
  | playingNotif (position_ms : Nat)
  | pausedNotif (position_ms : Nat)
  | stoppedNotif
  | endOfTrack
  | timeToPreloadNextTrack
  | seeked (position_ms : Nat)
  | unhandled
deriving DecidableEq, Repr

/-- The playback-engine notification arm of `Worker::run_loop`: maps a raw
notification to the new status mirror and the emitted domain events. -/
def handle_player_event (status : PlayerStatus) (now : Int)
    (ev : LibrespotPlayerEvent) : PlayerStatus × List Event :=
  match ev with
  | .playingNotif pos => (.playing, [.player (.playing (now - pos))])
  | .pausedNotif pos => (.paused, [.player (.paused pos)])
  | .stoppedNotif => (.stopped, [.player .stopped])
  | .endOfTrack => (status, [.player .finishedTrack])
  | .timeToPreloadNextTrack => (status, [.queue .preloadTrackRequest])
  | .seeked pos =>
    (status,
      [.player (match status with
        | .playing => .playing (now - pos)
        | .paused => .paused pos
        | .stopped => .stopped)])
  | .unhandled => (status, [])

/-- Track identifier as the worker sees it; `is_playable` mirrors
`SpotifyId::is_playable()`. -/
structure SpotifyId where
  is_playable : Bool
deriving DecidableEq, Repr

/-- A playable item as seen by the worker. `SpotifyId::from_uri` is external
librespot code; its result on this item's URI is modelled by the field
`uri_parse` (`none` = the URI is malformed and parsing returns `Err`). -/
structure Playable where
  uri_parse : Option SpotifyId
deriving DecidableEq, Repr

/-- Calls the worker issues to the playback engine. -/
inductive EngineAction
  | loadEngine (id : SpotifyId) (start_playing : Bool) (position_ms : Nat)
deriving DecidableEq, Repr

/-- The `WorkerCommand::Load` arm of `Worker::run_loop`: returns the emitted
domain events and the calls made into the playback engine. The handler is a
total function — a malformed or unplayable identifier is not an error, it
just emits `FinishedTrack` and the loop continues. -/
def handle_load (playable : Playable) (start_playing : Bool)
    (position_ms : Nat) : List Event × List EngineAction :=
  match playable.uri_parse with
  | some id =>
    if id.is_playable = false then ([.player .finishedTrack], [])
    else ([], [.loadEngine id start_playing position_ms])
  | none => ([.player .finishedTrack], [])

/-! Helper lemmas shared by several theorems. -/

/-- Removing the element at a valid index and re-consing it is a permutation
of the original list. -/
lemma cons_getElem_eraseIdx_perm {α : Type} (l : List α) (i : Nat)
    (h : i < l.length) : (l.get ⟨i, h⟩ :: l.eraseIdx i).Perm l := by
  rw [List.eraseIdx_eq_take_drop_succ]
  conv_rhs => rw [← List.take_append_drop i l, List.drop_eq_getElem_cons h]
  exact List.perm_middle.symm

/-- Whenever `generate_random_order` completes without panicking, it leaves
the track list, the shuffle flag and the current index unchanged and installs
an order that is a permutation of `0..len` (for any RNG outcome permuting its
input). -/
lemma generate_random_order_ok {α : Type} (shuf : List Nat → List Nat)
    (hshuf : ∀ l : List Nat, (shuf l).Perm l) (st st' : QueueState α)
    (h : generate_random_order shuf st = some st') :
    st'.queue = st.queue ∧ st'.shuffle = st.shuffle ∧
      st'.current_track = st.current_track ∧
      order_ok st'.random_order st'.queue.length := by
  simp only [generate_random_order] at h
  split at h
  · split at h
    · injection h with h
      subst h
      refine ⟨rfl, rfl, rfl, ?_⟩
      rename_i current heq hlt
      have h2 := cons_getElem_eraseIdx_perm (List.range st.queue.length) current hlt
      rw [List.get_eq_getElem, List.getElem_range] at h2
      exact ((hshuf _).cons current).trans h2
    · exact absurd h (by simp)
  · injection h with h
    subst h
    exact ⟨rfl, rfl, rfl, hshuf _⟩

/-! Claim theorems. -/

/-- C10: for every queue state in which the current index is `none`,
`next_index` and `previous_index` both return `None` (and do not panic),
regardless of the track list, the shuffle order or the repeat mode; both are
read-only functions of the state. -/
theorem c10_next_previous_index_none {α : Type} (st : QueueState α)
    (h : st.current_track = none) :
    next_index st = some none ∧ previous_index st = some none := by
  unfold next_index previous_index
  rw [h]
  exact ⟨rfl, rfl⟩

theorem c10_witness :
    next_index (⟨[1, 2], some [0, 1], none, true, RepeatSetting.none⟩ : QueueState Nat)
      = some none ∧
    previous_index (⟨[1, 2], some [0, 1], none, true, RepeatSetting.none⟩ : QueueState Nat)
      = some none :=
  c10_next_previous_index_none _ rfl

/-- C9: `append`, `insert_after_current` and `append_next` never change the
current index, whatever the state (whenever they complete without
panicking). -/
theorem c9_add_ops_preserve_current {α : Type} (st : QueueState α) (t : α)
    (ts : List α) :
    (append st t).current_track = st.current_track ∧
    (∀ st', insert_after_current st t = some st' →
      st'.current_track = st.current_track) ∧
    (∀ p, append_next st ts = some p → p.1.current_track = st.current_track) := by
  refine ⟨rfl, ?_, ?_⟩
  · intro st' h
    simp only [insert_after_current] at h
    repeat' split at h
    all_goals try (injection h with h; subst h)
    all_goals first | rfl | simp at h
  · intro p h
    simp only [append_next] at h
    repeat' split at h
    all_goals try (injection h with h; subst h)
    all_goals first | rfl | simp at h

theorem c9_witness :
    (append (⟨[1, 2], none, some 0, false, RepeatSetting.none⟩ : QueueState Nat) 9).current_track
      = some 0 ∧
    ((⟨[1, 9, 2], none, some 0, false, RepeatSetting.none⟩ : QueueState Nat)).current_track
      = some 0 ∧
    ((⟨[1, 7, 8, 2], none, some 0, false, RepeatSetting.none⟩ : QueueState Nat)).current_track
      = some 0 := by
  obtain ⟨h1, h2, h3⟩ :=
    c9_add_ops_preserve_current (⟨[1, 2], none, some 0, false, RepeatSetting.none⟩ : QueueState Nat)
      9 [7, 8]
  exact ⟨h1, h2 _ (by decide), h3 (⟨[1, 7, 8, 2], none, some 0, false, RepeatSetting.none⟩, 1) (by decide)⟩

/-- C5: every `Seeked(position)` notification is translated through the status
mirror: a `Playing` mirror yields `Playing(now - position)`, a `Paused` mirror
yields `Paused(position)`, a `Stopped` mirror yields `Stopped`, and the mirror
itself is never changed. -/
theorem c5_seeked_uses_status_mirror (now : Int) (pos : Nat)
    (status : PlayerStatus) :
    handle_player_event PlayerStatus.playing now (LibrespotPlayerEvent.seeked pos)
      = (PlayerStatus.playing, [Event.player (PlayerEvent.playing (now - pos))]) ∧
    handle_player_event PlayerStatus.paused now (LibrespotPlayerEvent.seeked pos)
      = (PlayerStatus.paused, [Event.player (PlayerEvent.paused pos)]) ∧
    handle_player_event PlayerStatus.stopped now (LibrespotPlayerEvent.seeked pos)
      = (PlayerStatus.stopped, [Event.player PlayerEvent.stopped]) ∧
    (handle_player_event status now (LibrespotPlayerEvent.seeked pos)).1 = status :=
  ⟨rfl, rfl, rfl, rfl⟩

/-- C6: a `Load` command whose item has a malformed identifier, or parses to
an unplayable identifier, emits `FinishedTrack` and issues no engine load;
the engine load happens exactly when the identifier parses and is playable.
`handle_load` is total, so no failure is propagated and the loop continues. -/
theorem c6_load_failure_finished_track (p : Playable) (b : Bool) (n : Nat) :
    (p.uri_parse = none →
      handle_load p b n = ([Event.player PlayerEvent.finishedTrack], [])) ∧
    (∀ id, p.uri_parse = some id → id.is_playable = false →
      handle_load p b n = ([Event.player PlayerEvent.finishedTrack], [])) ∧
    (∀ id, p.uri_parse = some id → id.is_playable = true →
      handle_load p b n = ([], [EngineAction.loadEngine id b n])) := by
  refine ⟨fun h => ?_, fun id h hp => ?_, fun id h hp => ?_⟩
  · simp [handle_load, h]
  · simp [handle_load, h, hp]
  · simp [handle_load, h, hp]

theorem c6_witness :
    handle_load ⟨none⟩ true 0 = ([Event.player PlayerEvent.finishedTrack], []) ∧
    handle_load ⟨some ⟨false⟩⟩ true 0 = ([Event.player PlayerEvent.finishedTrack], []) ∧
    handle_load ⟨some ⟨true⟩⟩ false 5 = ([], [EngineAction.loadEngine ⟨true⟩ false 5]) :=
  ⟨(c6_load_failure_finished_track ⟨none⟩ true 0).1 rfl,
    (c6_load_failure_finished_track ⟨some ⟨false⟩⟩ true 0).2.1 ⟨false⟩ rfl rfl,
    (c6_load_failure_finished_track ⟨some ⟨true⟩⟩ false 5).2.2 ⟨true⟩ rfl rfl⟩

/-- C2 counterexample: on `queue = [5, 6]` with order `[1, 0]` and shuffle on,
`append 7` pushes `1` (that is, `order.len() - 1`) onto the order, not the new
track's index `2`: the claim that the new index is appended to the tail is
false on this state. -/
theorem c2_counterexample :
    (append (⟨[5, 6], some [1, 0], some 0, true, RepeatSetting.none⟩ : QueueState Nat) 7).queue
      = [5, 6, 7] ∧
    (append (⟨[5, 6], some [1, 0], some 0, true, RepeatSetting.none⟩ : QueueState Nat) 7).random_order
      = some [1, 0, 1] ∧
    (some [1, 0, 1] : Option (List Nat)) ≠ some [1, 0, 2] := by decide

/-- C2 amended: with a permutation present, `append(track)` appends `track`
at the end of the track list and appends `order.len() - 1` (the index of the
previously last item; `0` on an empty order), not the new index, to the tail
of the order, leaving all existing entries unchanged. -/
theorem c2_append_spec {α : Type} (st : QueueState α) (t : α)
    (order : List Nat) (h : st.random_order = some order) :
    (append st t).queue = st.queue ++ [t] ∧
    (append st t).random_order = some (order ++ [order.length - 1]) := by
  simp [append, h]

theorem c2_witness :
    (append (⟨[9], some [0], none, true, RepeatSetting.none⟩ : QueueState Nat) 4).queue
      = [9] ++ [4] ∧
    (append (⟨[9], some [0], none, true, RepeatSetting.none⟩ : QueueState Nat) 4).random_order
      = some ([0] ++ [[0].length - 1]) :=
  c2_append_spec (⟨[9], some [0], none, true, RepeatSetting.none⟩ : QueueState Nat) 4 [0] rfl

/-- C3 counterexample: `remove(1)` on the one-element queue `[5]` panics
(`Vec::remove` with an out-of-range index, modelled by `none`), so it is not
true that `remove` with `index >= len` completes without panicking. -/
theorem c3_counterexample :
    remove (fun l => l) (⟨[5], none, none, false, RepeatSetting.none⟩ : QueueState Nat) 1 = none ∧
    (⟨[5], none, none, false, RepeatSetting.none⟩ : QueueState Nat).queue ≠ [] := by
  decide

/-- C3 amended: the only guard present is the empty-queue early return of
`remove`; out-of-range indices are not validated and panic: `remove(i)` with
`i >= len` on a non-empty list panics, `shift(from, to)` with `from >= len`
panics, and `get_current()` with a current index `>= len` panics. -/
theorem c3_out_of_range_panics {α : Type} (shuf : List Nat → List Nat)
    (st : QueueState α) (i fromIdx toIdx j : Nat) :
    (st.queue = [] → remove shuf st i = some (st, [])) ∧
    (st.queue ≠ [] → st.queue.length ≤ i → remove shuf st i = none) ∧
    (st.queue.length ≤ fromIdx → shift st fromIdx toIdx = none) ∧
    (st.current_track = some j → st.queue.length ≤ j → get_current st = none) := by
  refine ⟨fun h => ?_, fun h1 h2 => ?_, fun h => ?_, fun hc hj => ?_⟩
  · simp [remove, h]
  · have hl : ¬ st.queue.length = 0 := by
      simpa [List.length_eq_zero] using h1
    simp [remove, hl, Nat.not_lt.mpr h2]
  · have hf : st.queue[fromIdx]? = none := List.getElem?_eq_none h
    simp [shift, hf]
  · have hg : st.queue[j]? = none := List.getElem?_eq_none hj
    simp [get_current, hc, hg]

theorem c3_witness :
    remove (fun l => l) (⟨[], none, none, false, RepeatSetting.none⟩ : QueueState Nat) 0
      = some (⟨[], none, none, false, RepeatSetting.none⟩, []) ∧
    remove (fun l => l) (⟨[7], none, some 2, false, RepeatSetting.none⟩ : QueueState Nat) 3
      = none ∧
    shift (⟨[7], none, some 2, false, RepeatSetting.none⟩ : QueueState Nat) 5 0 = none ∧
    get_current (⟨[7], none, some 2, false, RepeatSetting.none⟩ : QueueState Nat) = none :=
  ⟨(c3_out_of_range_panics (fun l => l)
      (⟨[], none, none, false, RepeatSetting.none⟩ : QueueState Nat) 0 0 0 0).1 rfl,
    (c3_out_of_range_panics (fun l => l)
      (⟨[7], none, some 2, false, RepeatSetting.none⟩ : QueueState Nat) 3 5 0 2).2.1
      (by decide) (by decide),
    (c3_out_of_range_panics (fun l => l)
      (⟨[7], none, some 2, false, RepeatSetting.none⟩ : QueueState Nat) 3 5 0 2).2.2.1
      (by decide),
    (c3_out_of_range_panics (fun l => l)
      (⟨[7], none, some 2, false, RepeatSetting.none⟩ : QueueState Nat) 3 5 0 2).2.2.2
      rfl (by decide)⟩

/-- C4 counterexample: on queue `[5]` with current index `0` and repeat mode
`RepeatTrack`, `next(manual = true)` finds no next index and stops the engine,
leaving the repeat mode at `RepeatTrack`: the claim that a manual `next`
always sets the repeat mode to `RepeatPlaylist` is false on this state. -/
theorem c4_counterexample :
    next (fun l => l)
        (⟨[5], none, some 0, false, RepeatSetting.repeatTrack⟩ : QueueState Nat) true
      = some (⟨[5], none, some 0, false, RepeatSetting.repeatTrack⟩,
          [SpotifyAction.stopPlayer]) ∧
    RepeatSetting.repeatTrack ≠ RepeatSetting.repeatPlaylist := by
  decide

/-- C4 amended: under `RepeatTrack` with a present current index,
`next(manual = false)` replays the current item, leaving the current index and
the repeat mode unchanged; `next(manual = true)` downgrades the repeat mode to
`RepeatPlaylist` only when a next index exists — when `next_index` is `None`
it stops the engine and leaves the repeat mode (and the current index)
unchanged. -/
theorem c4_next_repeat_track {α : Type} (shuf : List Nat → List Nat)
    (st : QueueState α) (idx : Nat)
    (hrep : st.repeat_mode = RepeatSetting.repeatTrack)
    (hcur : st.current_track = some idx) :
    (∀ tr, st.queue[idx]? = some tr →
      next shuf st false
        = some (st, [SpotifyAction.load tr true 0, SpotifyAction.updateTrack])) ∧
    (∀ j, next_index st = some (some j) →
      next shuf st true
        = some ({ (playCore st j).1 with repeat_mode := RepeatSetting.repeatPlaylist },
            (playCore st j).2)) ∧
    (next_index st = some none →
      next shuf st true = some (st, [SpotifyAction.stopPlayer])) := by
  have hplay : ∀ k, play st k false false 0 shuf = some (playCore st k) := by
    intro k
    simp [play]
  refine ⟨fun tr htr => ?_, fun j hj => ?_, fun hj => ?_⟩
  · have hcore : playCore st idx
        = ({ st with current_track := some idx },
            [SpotifyAction.load tr true 0, SpotifyAction.updateTrack]) := by
      simp [playCore, htr]
    simp [next, hrep, hcur, hplay, hcore]
    cases st
    simp_all
  · simp [next, hrep, hj, hplay]
  · simp [next, hrep, hj]

theorem c4_witness :
    next (fun l => l)
        (⟨[5, 6], none, some 0, false, RepeatSetting.repeatTrack⟩ : QueueState Nat) false
      = some (⟨[5, 6], none, some 0, false, RepeatSetting.repeatTrack⟩,
          [SpotifyAction.load 5 true 0, SpotifyAction.updateTrack]) ∧
    next (fun l => l)
        (⟨[5, 6], none, some 0, false, RepeatSetting.repeatTrack⟩ : QueueState Nat) true
      = some (⟨[5, 6], none, some 1, false, RepeatSetting.repeatPlaylist⟩,
          [SpotifyAction.load 6 true 0, SpotifyAction.updateTrack]) ∧
    next (fun l => l)
        (⟨[5], none, some 0, false, RepeatSetting.repeatTrack⟩ : QueueState Nat) true
      = some (⟨[5], none, some 0, false, RepeatSetting.repeatTrack⟩,
          [SpotifyAction.stopPlayer]) := by
  obtain ⟨h1, h2, _⟩ := c4_next_repeat_track (fun l => l)
    (⟨[5, 6], none, some 0, false, RepeatSetting.repeatTrack⟩ : QueueState Nat) 0 rfl rfl
  obtain ⟨_, _, h6⟩ := c4_next_repeat_track (fun l => l)
    (⟨[5], none, some 0, false, RepeatSetting.repeatTrack⟩ : QueueState Nat) 0 rfl rfl
  refine ⟨h1 5 (by decide), ?_, h6 (by decide)⟩
  rw [h2 1 (by decide)]
  decide

/-- Reinserting the element removed from a valid index restores the list. -/
lemma insertIdx_eraseIdx_self {α : Type} (l : List α) (i : Nat)
    (h : i < l.length) :
    (l.eraseIdx i).insertIdx i (l.get ⟨i, h⟩) = l := by
  induction l generalizing i with
  | nil => simp at h
  | cons a t ih =>
    cases i with
    | zero => rfl
    | succ i =>
      simp only [List.eraseIdx_cons_succ, List.insertIdx_succ_cons, List.get_cons_succ]
      exact congrArg (a :: ·) (ih i (by simpa using h))

/-- When the source index is in range and the target position in range for
the reinsertion, `shift` succeeds and the resulting track list is
"erase at `fromIdx`, insert the removed item at `toIdx`". -/
lemma shift_spec {α : Type} (st : QueueState α) (fromIdx toIdx : Nat) (x : α)
    (hx : st.queue[fromIdx]? = some x)
    (ht : toIdx ≤ (st.queue.eraseIdx fromIdx).length) :
    ∃ st1, shift st fromIdx toIdx = some st1 ∧
      st1.queue = (st.queue.eraseIdx fromIdx).insertIdx toIdx x := by
  refine ⟨_, by simp only [shift, hx, if_pos ht]; rfl, rfl⟩

/-- C8: for distinct valid indices, `shift(from, to)` followed by
`shift(to, from)` completes without panicking and restores the original
track-list ordering. -/
theorem c8_shift_shift_restores {α : Type} (st : QueueState α)
    (f t : Nat) (hf : f < st.queue.length) (ht : t < st.queue.length)
    (hne : f ≠ t) :
    Option.map QueueState.queue ((shift st f t).bind (fun st1 => shift st1 t f))
      = some st.queue := by
  have hx : st.queue[f]? = some (st.queue.get ⟨f, hf⟩) := by
    rw [List.getElem?_eq_getElem hf, List.get_eq_getElem]
  have hl1 : (st.queue.eraseIdx f).length = st.queue.length - 1 :=
    List.length_eraseIdx_of_lt hf
  obtain ⟨st1, e1, q1⟩ := shift_spec st f t _ hx (by omega)
  have hx2 : st1.queue[t]? = some (st.queue.get ⟨f, hf⟩) := by
    rw [q1]
    have hlen : t < ((st.queue.eraseIdx f).insertIdx t (st.queue.get ⟨f, hf⟩)).length := by
      rw [List.length_insertIdx t _ (by omega)]
      omega
    rw [List.getElem?_eq_getElem hlen, List.getElem_insertIdx_self _ _ t (by omega)]
  have hguard2 : f ≤ (st1.queue.eraseIdx t).length := by
    rw [q1, List.eraseIdx_insertIdx, hl1]
    omega
  obtain ⟨st2, e2, q2⟩ := shift_spec st1 t f _ hx2 hguard2
  have hbind : (shift st f t).bind (fun s => shift s t f) = some st2 := by
    rw [e1]
    exact e2
  rw [hbind]
  show some st2.queue = some st.queue
  rw [q2, q1, List.eraseIdx_insertIdx, insertIdx_eraseIdx_self st.queue f hf]

theorem c8_witness :
    Option.map QueueState.queue
        ((shift (⟨[1, 2, 3], none, none, false, RepeatSetting.none⟩ : QueueState Nat) 0 2).bind
          (fun st1 => shift st1 2 0))
      = some [1, 2, 3] :=
  c8_shift_shift_restores (⟨[1, 2, 3], none, none, false, RepeatSetting.none⟩ : QueueState Nat)
    0 2 (by decide) (by decide) (by decide)

/-- C7: deleting an index strictly below a valid current index makes `remove`
succeed, decrement the current index by one (so that it addresses the same
item as before), delete exactly the requested entry, and issue no playback
call. -/
theorem c7_remove_below_current {α : Type} (shuf : List Nat → List Nat)
    (st : QueueState α) (i ct : Nat) (hcur : st.current_track = some ct)
    (hlt : i < ct) (hct : ct < st.queue.length) :
    (remove shuf st i).isSome = true ∧
    ∀ p, remove shuf st i = some p →
      p.1.current_track = some (ct - 1) ∧
      p.1.queue = st.queue.eraseIdx i ∧
      p.1.queue[ct - 1]? = st.queue[ct]? ∧
      p.2 = [] := by
  have hlen0 : ¬ st.queue.length = 0 := by omega
  have hi : i < st.queue.length := by omega
  have hlen1 : ¬ st.queue.length - 1 = 0 := by omega
  have hne : ¬ ct = i := by omega
  have hlt2 : ct - 1 < st.queue.length - 1 := by omega
  have hge : (st.queue.eraseIdx i)[ct - 1]? = st.queue[ct]? := by
    rw [List.getElem?_eraseIdx_of_ge st.queue i (ct - 1) (by omega)]
    congr 1
    omega
  cases hsh : st.shuffle with
  | false =>
    have hrem : remove shuf st i
        = some ({ st with
            queue := st.queue.eraseIdx i,
            current_track := some (ct - 1) }, []) := by
      simp [remove, hlen0, hi, hcur, hne, hlt, hsh, List.length_eraseIdx, hlen1]
    refine ⟨by rw [hrem]; rfl, fun p hp => ?_⟩
    rw [hrem] at hp
    injection hp with hp
    subst hp
    exact ⟨rfl, rfl, hge, rfl⟩
  | true =>
    have hrem : remove shuf st i
        = some ({ st with
            queue := st.queue.eraseIdx i,
            current_track := some (ct - 1),
            random_order := some ((ct - 1) ::
              shuf ((List.range (st.queue.eraseIdx i).length).eraseIdx (ct - 1))) }, []) := by
      simp [remove, generate_random_order, hlen0, hi, hcur, hne, hlt, hsh,
        List.length_eraseIdx, hlen1, hlt2]
    refine ⟨by rw [hrem]; rfl, fun p hp => ?_⟩
    rw [hrem] at hp
    injection hp with hp
    subst hp
    exact ⟨rfl, rfl, hge, rfl⟩

theorem c7_witness :
    (remove (fun l => l)
        (⟨[10, 20, 30], none, some 1, false, RepeatSetting.none⟩ : QueueState Nat) 0).isSome
      = true ∧
    (⟨[20, 30], none, some 0, false, RepeatSetting.none⟩ : QueueState Nat).current_track
        = some (1 - 1) ∧
      (⟨[20, 30], none, some 0, false, RepeatSetting.none⟩ : QueueState Nat).queue
        = [10, 20, 30].eraseIdx 0 ∧
      (⟨[20, 30], none, some 0, false, RepeatSetting.none⟩ : QueueState Nat).queue[1 - 1]?
        = [10, 20, 30][1]? ∧
      ([] : List (SpotifyAction Nat)) = [] := by
  obtain ⟨h1, h2⟩ := c7_remove_below_current (fun l => l)
    (⟨[10, 20, 30], none, some 1, false, RepeatSetting.none⟩ : QueueState Nat) 0 1
    rfl (by decide) (by decide)
  exact ⟨h1, h2 ((⟨[20, 30], none, some 0, false, RepeatSetting.none⟩ : QueueState Nat), [])
    (by decide)⟩

/-- The order entries greater than `index` get shifted up by one and `index + 1`
is consed on: together this is a permutation of `0..n + 1` whenever the
original entries are a permutation of `0..n` (as used by
`insert_after_current`). -/
lemma cons_map_shift_perm_range (n index : Nat) (h : index < n) :
    ((index + 1) ::
        (List.range n).map (fun item => if index < item then item + 1 else item)).Perm
      (List.range (n + 1)) := by
  have harith : (n - index - 1) + (index + 1) = n := by omega
  have hsplit := List.range'_append_1 0 (index + 1) (n - index - 1)
  rw [Nat.zero_add, harith] at hsplit
  have e1 : List.range n
      = List.range' 0 (index + 1) ++ List.range' (index + 1) (n - index - 1) := by
    rw [List.range_eq_range', ← hsplit]
  have e2 : (List.range' 0 (index + 1)).map
        (fun item => if index < item then item + 1 else item)
      = List.range' 0 (index + 1) := by
    rw [List.map_congr_left (g := fun a => a), List.map_id']
    intro a ha
    obtain ⟨j, hj, rfl⟩ := List.mem_range'.1 ha
    rw [if_neg (by omega)]
  have e3 : (List.range' (index + 1) (n - index - 1)).map
        (fun item => if index < item then item + 1 else item)
      = List.range' (index + 2) (n - index - 1) := by
    rw [List.map_congr_left (g := fun x => 1 + x), List.map_add_range',
      show 1 + (index + 1) = index + 2 from by omega]
    intro a ha
    obtain ⟨j, hj, rfl⟩ := List.mem_range'.1 ha
    rw [if_pos (by omega)]
    omega
  have harith2 : (n - index) + (index + 1) = n + 1 := by omega
  have h5 := List.range'_append_1 0 (index + 1) (n - index)
  rw [Nat.zero_add, harith2] at h5
  have h6 : List.range' (index + 1) (n - index)
      = (index + 1) :: List.range' (index + 2) (n - index - 1) := by
    conv_lhs => rw [show n - index = (n - index - 1) + 1 from by omega, List.range'_succ]
  have e4 : List.range (n + 1)
      = List.range' 0 (index + 1)
        ++ (index + 1) :: List.range' (index + 2) (n - index - 1) := by
    rw [List.range_eq_range', ← h5, h6]
  have efinal : ((index + 1) ::
        (List.range n).map (fun item => if index < item then item + 1 else item))
      = (index + 1) ::
          (List.range' 0 (index + 1) ++ List.range' (index + 2) (n - index - 1)) := by
    rw [e1, List.map_append, e2, e3]
  rw [efinal, e4]
  exact List.perm_middle.symm

/-- C1 counterexample: the state with track list `[5]`, order `[0]`, shuffle
on satisfies the invariant, but `append 6` produces the order `[0, 0]`, which
is not a bijection over `0..2`: `append` does not preserve the invariant. -/
theorem c1_counterexample :
    shuffled_invariant
      (⟨[5], some [0], some 0, true, RepeatSetting.none⟩ : QueueState Nat) ∧
    (append (⟨[5], some [0], some 0, true, RepeatSetting.none⟩ : QueueState Nat) 6).random_order
      = some [0, 0] ∧
    ¬ shuffled_invariant
      (append (⟨[5], some [0], some 0, true, RepeatSetting.none⟩ : QueueState Nat) 6) := by
  decide

/-- C1 amended: the bijection invariant is preserved by `insert_after_current`
when something is playing, is (re-)established by `remove` and by
`set_shuffle(true)` whenever they complete without panicking, but it is not
preserved by `append` (and hence not by `append_next` or by
`insert_after_current` when nothing is playing, which defer to the same
tail-extension), because the order is extended with `len - 1` instead of the
new index. -/
theorem c1_invariant_preservation {α : Type} (shuf : List Nat → List Nat)
    (hshuf : ∀ l : List Nat, (shuf l).Perm l) (st : QueueState α) (t : α)
    (i : Nat) :
    (∀ st', st.current_track ≠ none → shuffled_invariant st →
      insert_after_current st t = some st' → shuffled_invariant st') ∧
    (∀ p, remove shuf st i = some p → shuffled_invariant p.1) ∧
    (∀ st', set_shuffle shuf st true = some st' → shuffled_invariant st') := by
  refine ⟨?_, ?_, ?_⟩
  · intro st' hcur hinv heq
    simp only [insert_after_current] at heq
    split at heq
    · rename_i index hix
      split at heq
      · rename_i order hro
        split at heq
        · rename_i hmem
          split at heq
          · rename_i hguard
            injection heq with heq
            subst heq
            intro hsh hne
            have hlen : 0 < st.queue.length := by omega
            have hperm : order.Perm (List.range st.queue.length) := by
              have := hinv hsh (List.length_pos.mp hlen)
              rw [hro] at this
              exact this
            have hidx : index < st.queue.length := by
              have := hperm.mem_iff.mp hmem
              simpa using this
            show ((order.map fun item => if index < item then item + 1 else item).insertIdx
                (order.indexOf index + 1) (index + 1)).Perm
              (List.range (st.queue.insertIdx (index + 1) t).length)
            rw [List.length_insertIdx _ _ hguard]
            have hnext : order.indexOf index < order.length :=
              List.indexOf_lt_length.mpr hmem
            have h1 := List.perm_insertIdx (index + 1)
              (order.map fun item => if index < item then item + 1 else item)
              (n := order.indexOf index + 1) (by rw [List.length_map]; omega)
            exact h1.trans (((hperm.map _).cons _).trans
              (cons_map_shift_perm_range _ index hidx))
          · exact absurd heq (by simp)
        · exact absurd heq (by simp)
      · rename_i hro
        split at heq
        · rename_i hguard
          injection heq with heq
          subst heq
          intro hsh hne
          have hlen : 0 < st.queue.length := by omega
          have hfalse := hinv hsh (List.length_pos.mp hlen)
          rw [hro] at hfalse
          exact hfalse.elim
        · exact absurd heq (by simp)
    · rename_i hnone
      exact absurd hnone hcur
  · intro p h
    simp only [remove] at h
    split at h
    · rename_i hlen
      injection h with h
      subst h
      intro hsh hne
      exact absurd (List.length_eq_zero.mp hlen) hne
    · split at h
      · split at h
        · rename_i hlen1
          injection h with h
          subst h
          intro hsh hne
          exact absurd (List.length_eq_zero.mp hlen1) hne
        · rw [Option.bind_eq_some] at h
          obtain ⟨q, hq, hf⟩ := h
          split at hf
          · rw [Option.map_eq_some'] at hf
            obtain ⟨s, hgen, hp⟩ := hf
            subst hp
            obtain ⟨hq', hs', hc', ho'⟩ := generate_random_order_ok shuf hshuf _ _ hgen
            intro _ _
            exact ho'
          · rename_i hnsh
            injection hf with hf
            subst hf
            intro hsh hne
            exact absurd hsh hnsh
      · exact absurd h (by simp)
  · intro st' h
    simp only [set_shuffle, if_pos] at h
    obtain ⟨hq, hs, hc, ho⟩ := generate_random_order_ok shuf hshuf _ _ h
    intro _ _
    exact ho

theorem c1_witness :
    shuffled_invariant
      (⟨[3, 9, 4], some [2, 0, 1], some 0, true,
        RepeatSetting.repeatPlaylist⟩ : QueueState Nat) ∧
    shuffled_invariant
      (⟨[3], some [0], some 0, true, RepeatSetting.repeatPlaylist⟩ : QueueState Nat) ∧
    shuffled_invariant
      (⟨[3, 4], some [0, 1], some 0, true, RepeatSetting.repeatPlaylist⟩ : QueueState Nat) := by
  obtain ⟨h1, h2, h3⟩ := c1_invariant_preservation (fun l => l)
    (fun l => List.Perm.refl l)
    (⟨[3, 4], some [1, 0], some 0, true, RepeatSetting.repeatPlaylist⟩ : QueueState Nat) 9 1
  refine ⟨h1 _ (by decide) (by decide) (by decide), ?_, h3 _ (by decide)⟩
  exact h2 ((⟨[3], some [0], some 0, true, RepeatSetting.repeatPlaylist⟩ : QueueState Nat),
    ([] : List (SpotifyAction Nat))) (by decide)

end Ncspot
